import Mathlib

/-!
Verification of the undirected-graph exercise
(`src/exercises/algorithm/algorithm10.rs`).

The Rust code stores an adjacency table
`HashMap<String, Vec<(String, i32)>>`.  We embed the table as an
association list with first-occurrence lookup, which matches the
observable behaviour of the `HashMap` operations used by the code
(`get`, `insert` of a fresh key, `entry(..).or_insert_with(Vec::new).push`):
membership, per-key neighbour lists and edge multiplicities are
preserved; only iteration order is a representation artifact.
-/

namespace Algorithm10

/-- The adjacency table: node label ↦ neighbour list of (label, weight). -/
abbrev AdjTable := List (String × List (String × Int))

/-- First-occurrence lookup, the behaviour of `HashMap::get`. -/
def lookupT : AdjTable → String → Option (List (String × Int))
  | [], _ => none
  | (k, l) :: rest, x => if k = x then some l else lookupT rest x

/-- `Graph::contains`: `self.adjacency_table().get(node).is_some()`. -/
def containsT (t : AdjTable) (x : String) : Bool :=
  (lookupT t x).isSome

/-- The neighbour list of a node (empty when the node is absent). -/
def neighbors (t : AdjTable) (x : String) : List (String × Int) :=
  (lookupT t x).getD []

/-- `Graph::add_node`: insert the label with an empty neighbour list if
absent and return `true`; return `false` leaving the table unchanged
when the label is already present. -/
def add_node (t : AdjTable) (x : String) : Bool × AdjTable :=
  if containsT t x then (false, t) else (true, t ++ [(x, [])])

/-- `entry(k).or_insert_with(Vec::new).push(e)`: append `e` to the
neighbour list of `k`, creating the entry with a fresh singleton list
when `k` is absent. -/
def pushEntry : AdjTable → String → String × Int → AdjTable
  | [], k, e => [(k, [e])]
  | (k', l) :: rest, k, e =>
      if k' = k then (k', l ++ [e]) :: rest else (k', l) :: pushEntry rest k e

/-- The default `Graph::add_edge`: auto-create missing endpoints, then
append only the forward entry `(to_node, weight)` to `from_node`'s list. -/
def dAddEdge (t : AdjTable) (a b : String) (w : Int) : AdjTable :=
  let t1 := if containsT t a then t else (add_node t a).2
  let t2 := if containsT t1 b then t1 else (add_node t1 b).2
  pushEntry t2 a (b, w)

/-- `UndirectedGraph::add_edge` (the override): auto-create missing
endpoints, append the forward entry to `from_node`'s list, then append
the reverse entry `(from_node, weight)` to `to_node`'s list. -/
def uAddEdge (t : AdjTable) (a b : String) (w : Int) : AdjTable :=
  let t1 := if containsT t a then t else (add_node t a).2
  let t2 := if containsT t1 b then t1 else (add_node t1 b).2
  let t3 := pushEntry t2 a (b, w)
  pushEntry t3 b (a, w)

/-- `Graph::new` for `UndirectedGraph`: the empty adjacency table. -/
def newGraph : AdjTable := []

/-- `Graph::nodes`: the keys of the adjacency table. -/
def nodes (t : AdjTable) : List String :=
  t.map Prod.fst

/-- `Graph::edges`: flatten the table into `(from, to, weight)` triples. -/
def edges : AdjTable → List (String × String × Int)
  | [] => []
  | (k, l) :: rest => l.map (fun q => (k, q.1, q.2)) ++ edges rest

/-- Multiplicity of a triple in an edge list. -/
def countE (x : String × String × Int) : List (String × String × Int) → Nat
  | [] => 0
  | y :: ys => (if y = x then 1 else 0) + countE x ys

/-- One graph-mutating operation. -/
inductive Op where
  | addNode (s : String)
  | addEdge (a b : String) (w : Int)
deriving DecidableEq

/-- Apply one operation to the table (the `bool` result of `add_node`
is discarded when sequencing). -/
def applyOp (t : AdjTable) : Op → AdjTable
  | Op.addNode s => (add_node t s).2
  | Op.addEdge a b w => uAddEdge t a b w

/-- Run a sequence of operations starting from `new()`. -/
def run (ops : List Op) : AdjTable :=
  ops.foldl applyOp newGraph

/-- The labels mentioned by a sequence of operations: `add_node`
arguments and both endpoints of `add_edge` arguments. -/
def mentioned : List Op → List String
  | [] => []
  | Op.addNode s :: rest => s :: mentioned rest
  | Op.addEdge a b _ :: rest => a :: b :: mentioned rest

/-- The symmetry invariant of the undirected graph: every neighbour
entry has its mirror entry. -/
def Sym (t : AdjTable) : Prop :=
  ∀ a b w, (b, w) ∈ neighbors t a → (a, w) ∈ neighbors t b

/-- The `NodeNotInGraph` error struct (a fieldless struct). -/
structure NodeNotInGraph where

/-- The derived `Clone` of a fieldless struct: the identity copy. -/
def NodeNotInGraph.clone (e : NodeNotInGraph) : NodeNotInGraph := e

/-- The `Display` implementation for `NodeNotInGraph`. -/
def NodeNotInGraph.fmt : NodeNotInGraph → String :=
  fun _ => "accessing a node that is not in the graph"

/-- The trait list in `#[derive(Debug, Clone)]` on `NodeNotInGraph`. -/
def derivedTraitsNodeNotInGraph : List String := ["Debug", "Clone"]

/-! ### Lemmas about `lookupT`, `pushEntry`, `add_node` -/

theorem lookupT_pushEntry_self (t : AdjTable) (k : String) (e : String × Int) :
    lookupT (pushEntry t k e) k = some (neighbors t k ++ [e]) := by
  induction t with
  | nil => simp [pushEntry, lookupT, neighbors]
  | cons p rest ih =>
    obtain ⟨k', l⟩ := p
    by_cases h : k' = k
    · subst h
      simp [pushEntry, lookupT, neighbors]
    · simp [pushEntry, lookupT, neighbors, h, ih]

theorem lookupT_pushEntry_ne (t : AdjTable) (k : String) (e : String × Int)
    (x : String) (h : x ≠ k) :
    lookupT (pushEntry t k e) x = lookupT t x := by
  have hk0 : ¬ k = x := fun hh => h hh.symm
  induction t with
  | nil => simp [pushEntry, lookupT, hk0]
  | cons p rest ih =>
    obtain ⟨k', l⟩ := p
    by_cases hk : k' = k
    · subst hk
      have : ¬ k' = x := fun hh => h hh.symm
      simp [pushEntry, lookupT, this]
    · by_cases hx : k' = x
      · subst hx
        simp [pushEntry, lookupT, hk]
      · simp [pushEntry, lookupT, hk, hx, ih]

theorem neighbors_pushEntry (t : AdjTable) (k : String) (e : String × Int)
    (x : String) :
    neighbors (pushEntry t k e) x
      = if x = k then neighbors t k ++ [e] else neighbors t x := by
  by_cases h : x = k
  · subst h
    simp [neighbors, lookupT_pushEntry_self]
  · simp [neighbors, lookupT_pushEntry_ne t k e x h, h]

theorem containsT_pushEntry (t : AdjTable) (k : String) (e : String × Int)
    (x : String) :
    containsT (pushEntry t k e) x = true ↔ x = k ∨ containsT t x = true := by
  by_cases h : x = k
  · subst h
    simp [containsT, lookupT_pushEntry_self]
  · simp [containsT, lookupT_pushEntry_ne t k e x h, h]

theorem lookupT_append (t t' : AdjTable) (x : String) :
    lookupT (t ++ t') x
      = match lookupT t x with
        | some l => some l
        | none => lookupT t' x := by
  induction t with
  | nil => simp [lookupT]
  | cons p rest ih =>
    obtain ⟨k', l⟩ := p
    by_cases h : k' = x
    · simp [lookupT, h]
    · simp [lookupT, h, ih]

theorem add_node_of_contains (t : AdjTable) (x : String)
    (h : containsT t x = true) : add_node t x = (false, t) := by
  simp [add_node, h]

theorem add_node_fst (t : AdjTable) (x : String) :
    (add_node t x).1 = !(containsT t x) := by
  by_cases h : containsT t x <;> simp [add_node, h]

theorem lookupT_addNode (t : AdjTable) (n x : String) :
    lookupT (add_node t n).2 x
      = if containsT t n then lookupT t x
        else match lookupT t x with
             | some l => some l
             | none => if n = x then some [] else none := by
  by_cases h : containsT t n
  · simp [add_node, h]
  · simp [add_node, h, lookupT_append, lookupT]

theorem neighbors_addNode (t : AdjTable) (n x : String) :
    neighbors (add_node t n).2 x = neighbors t x := by
  rw [neighbors, lookupT_addNode]
  by_cases h : containsT t n
  · simp [h, neighbors]
  · simp only [h, if_false]
    cases hx : lookupT t x with
    | some l => simp [neighbors, hx]
    | none =>
      by_cases hn : n = x <;> simp [neighbors, hx, hn]

theorem containsT_addNode (t : AdjTable) (n x : String) :
    containsT (add_node t n).2 x = true ↔ x = n ∨ containsT t x = true := by
  rw [containsT, lookupT_addNode]
  by_cases h : containsT t n
  · simp only [h, if_true]
    constructor
    · intro hx; exact Or.inr hx
    · rintro (rfl | hx)
      · exact h
      · exact hx
  · simp only [h, if_false]
    cases hx : lookupT t x with
    | some l => simp [containsT, hx]
    | none =>
      by_cases hn : n = x
      · subst hn
        simp [containsT, hx]
      · have hxn : ¬ x = n := fun hh => hn hh.symm
        simp [containsT, hx, hn, hxn]

theorem mem_nodes_iff (t : AdjTable) (x : String) :
    x ∈ nodes t ↔ containsT t x = true := by
  induction t with
  | nil => simp [nodes, containsT, lookupT]
  | cons p rest ih =>
    obtain ⟨k', l⟩ := p
    show x ∈ k' :: nodes rest ↔ containsT ((k', l) :: rest) x = true
    by_cases h : k' = x
    · subst h
      simp [containsT, lookupT]
    · have hx : ¬ x = k' := fun hh => h hh.symm
      simp only [List.mem_cons, hx, false_or]
      rw [ih]
      simp [containsT, lookupT, h]

/-! ### Lemmas about `edges` and multiplicities -/

theorem countE_append (x : String × String × Int)
    (l1 l2 : List (String × String × Int)) :
    countE x (l1 ++ l2) = countE x l1 + countE x l2 := by
  induction l1 with
  | nil => simp [countE]
  | cons y ys ih => simp [countE, ih, Nat.add_assoc]

theorem edges_append (t1 t2 : AdjTable) :
    edges (t1 ++ t2) = edges t1 ++ edges t2 := by
  induction t1 with
  | nil => simp [edges]
  | cons p rest ih =>
    obtain ⟨k, l⟩ := p
    simp [edges, ih]

theorem edges_addNode (t : AdjTable) (n : String) :
    edges (add_node t n).2 = edges t := by
  by_cases h : containsT t n
  · simp [add_node, h]
  · simp [add_node, h, edges_append, edges]

theorem countE_edges_pushEntry (t : AdjTable) (k : String) (e : String × Int)
    (x : String × String × Int) :
    countE x (edges (pushEntry t k e))
      = countE x (edges t) + (if (k, e.1, e.2) = x then 1 else 0) := by
  induction t with
  | nil => simp [pushEntry, edges, countE]
  | cons p rest ih =>
    obtain ⟨k', l⟩ := p
    by_cases hk : k' = k
    · subst hk
      simp only [pushEntry, if_pos rfl, edges, List.map_append, List.map_cons,
        List.map_nil, countE_append, countE]
      omega
    · simp only [pushEntry, if_neg hk, edges, countE_append, ih]
      omega

theorem mem_edges_of_mem_neighbors (t : AdjTable) (x y : String) (v : Int)
    (h : (y, v) ∈ neighbors t x) : (x, y, v) ∈ edges t := by
  induction t with
  | nil => simp [neighbors, lookupT] at h
  | cons p rest ih =>
    obtain ⟨k, l⟩ := p
    by_cases hk : k = x
    · subst hk
      simp only [neighbors, lookupT, if_pos rfl, Option.getD_some] at h
      simp only [edges, List.mem_append]
      exact Or.inl (List.mem_map.mpr ⟨(y, v), h, rfl⟩)
    · simp only [neighbors, lookupT, if_neg hk] at h
      simp only [edges, List.mem_append]
      exact Or.inr (ih h)

/-! ### Characterisation of `add_edge` -/

theorem neighbors_condAddNode (t : AdjTable) (n x : String) :
    neighbors (if containsT t n then t else (add_node t n).2) x
      = neighbors t x := by
  by_cases h : containsT t n
  · simp [h]
  · simp [h, neighbors_addNode]

theorem containsT_condAddNode (t : AdjTable) (n x : String) :
    containsT (if containsT t n then t else (add_node t n).2) x = true
      ↔ x = n ∨ containsT t x = true := by
  by_cases h : containsT t n
  · simp only [h, if_true]
    constructor
    · exact Or.inr
    · rintro (rfl | hx)
      · exact h
      · exact hx
  · simp [h, containsT_addNode]

theorem mem_neighbors_uAddEdge (t : AdjTable) (a b : String) (w : Int)
    (x y : String) (v : Int) :
    (y, v) ∈ neighbors (uAddEdge t a b w) x
      ↔ (y, v) ∈ neighbors t x ∨ (x = a ∧ y = b ∧ v = w)
          ∨ (x = b ∧ y = a ∧ v = w) := by
  simp only [uAddEdge, neighbors_pushEntry, neighbors_condAddNode]
  split_ifs <;> simp_all [List.mem_append, Prod.ext_iff]

theorem containsT_uAddEdge (t : AdjTable) (a b : String) (w : Int)
    (x : String) :
    containsT (uAddEdge t a b w) x = true
      ↔ x = a ∨ x = b ∨ containsT t x = true := by
  simp only [uAddEdge]
  rw [containsT_pushEntry, containsT_pushEntry, containsT_condAddNode,
    containsT_condAddNode]
  tauto

theorem edges_condAddNode (t : AdjTable) (n : String) :
    edges (if containsT t n then t else (add_node t n).2) = edges t := by
  by_cases h : containsT t n <;> simp [h, edges_addNode]

theorem countE_edges_dAddEdge (t : AdjTable) (a b : String) (w : Int)
    (x : String × String × Int) :
    countE x (edges (dAddEdge t a b w))
      = countE x (edges t) + (if (a, b, w) = x then 1 else 0) := by
  simp only [dAddEdge, countE_edges_pushEntry, edges_condAddNode]

theorem countE_edges_uAddEdge (t : AdjTable) (a b : String) (w : Int)
    (x : String × String × Int) :
    countE x (edges (uAddEdge t a b w))
      = countE x (edges t) + (if (a, b, w) = x then 1 else 0)
          + (if (b, a, w) = x then 1 else 0) := by
  simp only [uAddEdge, countE_edges_pushEntry, edges_condAddNode]

/-! ### Monotonicity -/

theorem lookupT_pushEntry_mono (t : AdjTable) (k : String) (e : String × Int)
    (x : String) (l : List (String × Int)) (h : lookupT t x = some l) :
    ∃ l2, lookupT (pushEntry t k e) x = some (l ++ l2) := by
  by_cases hx : x = k
  · subst hx
    refine ⟨[e], ?_⟩
    rw [lookupT_pushEntry_self]
    simp [neighbors, h]
  · exact ⟨[], by rw [lookupT_pushEntry_ne t k e x hx, h, List.append_nil]⟩

theorem lookupT_addNode_mono (t : AdjTable) (n x : String)
    (l : List (String × Int)) (h : lookupT t x = some l) :
    lookupT (add_node t n).2 x = some l := by
  rw [lookupT_addNode]
  by_cases hc : containsT t n <;> simp [hc, h]

theorem lookupT_condAddNode_mono (t : AdjTable) (n x : String)
    (l : List (String × Int)) (h : lookupT t x = some l) :
    lookupT (if containsT t n then t else (add_node t n).2) x = some l := by
  by_cases hc : containsT t n <;> simp [hc, h, lookupT_addNode_mono]

theorem applyOp_mono (t : AdjTable) (op : Op) (x : String)
    (l : List (String × Int)) (h : lookupT t x = some l) :
    ∃ l2, lookupT (applyOp t op) x = some (l ++ l2) := by
  cases op with
  | addNode s =>
    exact ⟨[], by rw [applyOp, lookupT_addNode_mono t s x l h, List.append_nil]⟩
  | addEdge a b w =>
    simp only [applyOp, uAddEdge]
    have h1 := lookupT_condAddNode_mono t a x l h
    have h2 := lookupT_condAddNode_mono _ b x l h1
    obtain ⟨l2, h3⟩ := lookupT_pushEntry_mono _ a (b, w) x l h2
    obtain ⟨l3, h4⟩ := lookupT_pushEntry_mono _ b (a, w) x _ h3
    exact ⟨l2 ++ l3, by rw [h4, List.append_assoc]⟩

theorem containsT_applyOp_mono (t : AdjTable) (op : Op) (x : String)
    (h : containsT t x = true) : containsT (applyOp t op) x = true := by
  rw [containsT] at h
  cases hl : lookupT t x with
  | none => rw [hl] at h; simp at h
  | some l =>
    obtain ⟨l2, h2⟩ := applyOp_mono t op x l hl
    simp [containsT, h2]

theorem mem_neighbors_applyOp_mono (t : AdjTable) (op : Op) (x y : String)
    (v : Int) (h : (y, v) ∈ neighbors t x) :
    (y, v) ∈ neighbors (applyOp t op) x := by
  rw [neighbors] at h
  cases hl : lookupT t x with
  | none => rw [hl] at h; simp at h
  | some l =>
    rw [hl] at h
    simp only [Option.getD_some] at h
    obtain ⟨l2, h2⟩ := applyOp_mono t op x l hl
    simp [neighbors, h2, List.mem_append, h]

theorem mem_neighbors_foldl_mono (ops : List Op) (t : AdjTable) (x y : String)
    (v : Int) (h : (y, v) ∈ neighbors t x) :
    (y, v) ∈ neighbors (ops.foldl applyOp t) x := by
  induction ops generalizing t with
  | nil => exact h
  | cons op rest ih =>
    exact ih (applyOp t op) (mem_neighbors_applyOp_mono t op x y v h)

/-! ### The symmetry invariant -/

theorem sym_newGraph : Sym newGraph := by
  intro a b w h
  simp [neighbors, lookupT, newGraph] at h

theorem sym_addNode (t : AdjTable) (n : String) (h : Sym t) :
    Sym (add_node t n).2 := by
  intro a b w hm
  rw [neighbors_addNode] at hm
  rw [neighbors_addNode]
  exact h a b w hm

theorem sym_uAddEdge (t : AdjTable) (a b : String) (w : Int) (h : Sym t) :
    Sym (uAddEdge t a b w) := by
  intro x y v hm
  rw [mem_neighbors_uAddEdge] at hm
  rw [mem_neighbors_uAddEdge]
  rcases hm with hm | ⟨rfl, rfl, rfl⟩ | ⟨rfl, rfl, rfl⟩
  · exact Or.inl (h x y v hm)
  · exact Or.inr (Or.inr ⟨rfl, rfl, rfl⟩)
  · exact Or.inr (Or.inl ⟨rfl, rfl, rfl⟩)

theorem sym_foldl (ops : List Op) (t : AdjTable) (h : Sym t) :
    Sym (ops.foldl applyOp t) := by
  induction ops generalizing t with
  | nil => exact h
  | cons op rest ih =>
    cases op with
    | addNode s => exact ih _ (sym_addNode t s h)
    | addEdge a b w => exact ih _ (sym_uAddEdge t a b w h)

theorem mem_addEdge_foldl (ops : List Op) (t : AdjTable) (a b : String)
    (w : Int) (h : Op.addEdge a b w ∈ ops) :
    (b, w) ∈ neighbors (ops.foldl applyOp t) a
    ∧ (a, w) ∈ neighbors (ops.foldl applyOp t) b := by
  induction ops generalizing t with
  | nil => simp at h
  | cons op rest ih =>
    rcases List.mem_cons.mp h with rfl | hrest
    · constructor
      · refine mem_neighbors_foldl_mono rest _ a b w ?_
        exact (mem_neighbors_uAddEdge t a b w a b w).mpr
          (Or.inr (Or.inl ⟨rfl, rfl, rfl⟩))
      · refine mem_neighbors_foldl_mono rest _ b a w ?_
        exact (mem_neighbors_uAddEdge t a b w b a w).mpr
          (Or.inr (Or.inr ⟨rfl, rfl, rfl⟩))
    · exact ih (applyOp t op) hrest

/-! ### Node-set completeness over runs -/

theorem containsT_foldl_iff (ops : List Op) (t : AdjTable) (x : String) :
    containsT (ops.foldl applyOp t) x = true
      ↔ containsT t x = true ∨ x ∈ mentioned ops := by
  induction ops generalizing t with
  | nil => simp [mentioned]
  | cons op rest ih =>
    cases op with
    | addNode s =>
      rw [List.foldl_cons, ih]
      show containsT (add_node t s).2 x = true ∨ x ∈ mentioned rest ↔ _
      rw [containsT_addNode]
      simp only [mentioned, List.mem_cons]
      tauto
    | addEdge a b w =>
      rw [List.foldl_cons, ih]
      show containsT (uAddEdge t a b w) x = true ∨ x ∈ mentioned rest ↔ _
      rw [containsT_uAddEdge]
      simp only [mentioned, List.mem_cons]
      tauto

theorem containsT_dAddEdge (t : AdjTable) (a b : String) (w : Int)
    (x : String) :
    containsT (dAddEdge t a b w) x = true
      ↔ x = a ∨ x = b ∨ containsT t x = true := by
  simp only [dAddEdge]
  rw [containsT_pushEntry, containsT_condAddNode, containsT_condAddNode]
  tauto

-- sanity checks on the test scenario
example :
    nodes (uAddEdge (uAddEdge (uAddEdge newGraph "a" "b" 5) "b" "c" 10) "c" "a" 7)
      = ["a", "b", "c"] := by decide

example :
    (("b", "a", (5 : Int))) ∈
      edges (uAddEdge (uAddEdge (uAddEdge newGraph "a" "b" 5) "b" "c" 10) "c" "a" 7) := by
  decide

example : countE ("a", "a", 3) (edges (uAddEdge newGraph "a" "a" 3)) = 2 := by decide

/-! ### Claim theorems -/

/-- C1: after any sequence of operations starting from `new()`, the
symmetry invariant holds — every entry `(b, w)` in `a`'s neighbour list
has a mirror entry `(a, w)` in `b`'s list — and every edge added via
`add_edge(a, b, w)` yields both `(a, b, w)` and `(b, a, w)` in
`edges()`. -/
theorem undirected_symmetry_invariant (ops : List Op) :
    Sym (run ops)
    ∧ (∀ a b w, Op.addEdge a b w ∈ ops →
        (a, b, w) ∈ edges (run ops) ∧ (b, a, w) ∈ edges (run ops)) := by
  refine ⟨sym_foldl ops newGraph sym_newGraph, ?_⟩
  intro a b w h
  obtain ⟨h1, h2⟩ := mem_addEdge_foldl ops newGraph a b w h
  exact ⟨mem_edges_of_mem_neighbors _ a b w h1,
    mem_edges_of_mem_neighbors _ b a w h2⟩

/-- Witness for C1 on the single-operation run `add_edge("a","b",5)`. -/
theorem undirected_symmetry_invariant_witness :
    ("a", (5 : Int)) ∈ neighbors (run [Op.addEdge "a" "b" 5]) "b"
    ∧ ("a", "b", (5 : Int)) ∈ edges (run [Op.addEdge "a" "b" 5])
    ∧ ("b", "a", (5 : Int)) ∈ edges (run [Op.addEdge "a" "b" 5]) := by
  have h := undirected_symmetry_invariant [Op.addEdge "a" "b" 5]
  exact ⟨h.1 "a" "b" 5 (by decide), (h.2 "a" "b" 5 (by decide)).1,
    (h.2 "a" "b" 5 (by decide)).2⟩

/-- C2: `add_edge(a, b, w)` auto-creates absent endpoints — afterwards
`contains(a)` and `contains(b)` are both true — for the undirected
override and for the default trait implementation alike; both are total
functions and signal no error. -/
theorem add_edge_auto_creates_endpoints (t : AdjTable) (a b : String)
    (w : Int) :
    containsT (uAddEdge t a b w) a = true
    ∧ containsT (uAddEdge t a b w) b = true
    ∧ containsT (dAddEdge t a b w) a = true
    ∧ containsT (dAddEdge t a b w) b = true :=
  ⟨(containsT_uAddEdge t a b w a).mpr (Or.inl rfl),
    (containsT_uAddEdge t a b w b).mpr (Or.inr (Or.inl rfl)),
    (containsT_dAddEdge t a b w a).mpr (Or.inl rfl),
    (containsT_dAddEdge t a b w b).mpr (Or.inr (Or.inl rfl))⟩

/-- C3: `add_node(x)` returns `true` exactly when `x` was absent,
storing `x` with an empty neighbour list; on a label already present it
returns `false` and leaves the table unchanged. -/
theorem add_node_true_iff_absent (t : AdjTable) (x : String) :
    ((add_node t x).1 = true ↔ containsT t x = false)
    ∧ (containsT t x = false → lookupT (add_node t x).2 x = some [])
    ∧ (containsT t x = true →
        (add_node t x).1 = false ∧ (add_node t x).2 = t) := by
  have hfst := add_node_fst t x
  refine ⟨?_, ?_, ?_⟩
  · rw [hfst]; cases containsT t x <;> simp
  · intro h
    have hl : lookupT t x = none := by
      cases hl : lookupT t x with
      | none => rfl
      | some l => rw [containsT, hl] at h; simp at h
    rw [lookupT_addNode]
    simp [h, hl]
  · intro h
    refine ⟨by rw [hfst, h]; rfl, ?_⟩
    rw [add_node_of_contains t x h]

/-- Witness for C3: first insertion of "a" stores an empty list; the
second call returns `false` and changes nothing. -/
theorem add_node_true_iff_absent_witness :
    lookupT (add_node newGraph "a").2 "a" = some []
    ∧ (add_node (add_node newGraph "a").2 "a").1 = false
    ∧ (add_node (add_node newGraph "a").2 "a").2 = (add_node newGraph "a").2 := by
  exact ⟨(add_node_true_iff_absent newGraph "a").2.1 (by decide),
    ((add_node_true_iff_absent (add_node newGraph "a").2 "a").2.2 (by decide)).1,
    ((add_node_true_iff_absent (add_node newGraph "a").2 "a").2.2 (by decide)).2⟩

/-- C4: after any sequence of `add_node`/`add_edge` calls starting from
`new()`, `nodes()` holds exactly the labels passed to `add_node` or
appearing as an endpoint of an `add_edge` call. -/
theorem node_set_completeness (ops : List Op) (x : String) :
    x ∈ nodes (run ops) ↔ x ∈ mentioned ops := by
  rw [mem_nodes_iff, run, containsT_foldl_iff]
  simp [newGraph, containsT, lookupT]

/-- C5: adding the same logical edge `(a, b, w)` (distinct endpoints)
twice yields exactly two forward entries and two reverse entries in
`edges()` beyond what was there before — duplicates are never merged or
rejected. -/
theorem edge_multiplicity_no_dedup (t : AdjTable) (a b : String) (w : Int)
    (h : a ≠ b) :
    countE (a, b, w) (edges (uAddEdge (uAddEdge t a b w) a b w))
      = countE (a, b, w) (edges t) + 2
    ∧ countE (b, a, w) (edges (uAddEdge (uAddEdge t a b w) a b w))
      = countE (b, a, w) (edges t) + 2 := by
  have hba : b ≠ a := h.symm
  constructor <;>
    simp [countE_edges_uAddEdge, Prod.ext_iff, h, hba]

/-- Witness for C5 at `a = "a"`, `b = "b"`, `w = 5` on the empty graph. -/
theorem edge_multiplicity_no_dedup_witness :
    countE ("a", "b", 5) (edges (uAddEdge (uAddEdge newGraph "a" "b" 5) "a" "b" 5))
      = countE ("a", "b", 5) (edges newGraph) + 2
    ∧ countE ("b", "a", 5) (edges (uAddEdge (uAddEdge newGraph "a" "b" 5) "a" "b" 5))
      = countE ("b", "a", 5) (edges newGraph) + 2 :=
  edge_multiplicity_no_dedup newGraph "a" "b" 5 (by decide)

/-- C6: the test scenario — after `add_edge("a","b",5)`,
`add_edge("b","c",10)`, `add_edge("c","a",7)` on an empty graph, the
nodes are exactly "a", "b", "c" and `edges()` contains all six expected
tuples. -/
theorem example_scenario_abc :
    nodes (uAddEdge (uAddEdge (uAddEdge newGraph "a" "b" 5) "b" "c" 10) "c" "a" 7)
      = ["a", "b", "c"]
    ∧ (∀ e ∈ ([("a", "b", 5), ("b", "a", 5), ("b", "c", 10), ("c", "b", 10),
          ("c", "a", 7), ("a", "c", 7)] : List (String × String × Int)),
        e ∈ edges (uAddEdge (uAddEdge (uAddEdge newGraph "a" "b" 5)
              "b" "c" 10) "c" "a" 7)) := by
  decide

/-- C7: the undirected override performs exactly the default
`add_edge` followed by the extra reverse append; the default appends
only the forward entry while the override appends forward and reverse. -/
theorem add_edge_override_refinement (t : AdjTable) (a b : String)
    (w : Int) :
    uAddEdge t a b w = pushEntry (dAddEdge t a b w) b (a, w)
    ∧ (∀ x, countE x (edges (dAddEdge t a b w))
        = countE x (edges t) + (if (a, b, w) = x then 1 else 0))
    ∧ (∀ x, countE x (edges (uAddEdge t a b w))
        = countE x (edges t) + (if (a, b, w) = x then 1 else 0)
            + (if (b, a, w) = x then 1 else 0)) :=
  ⟨rfl, fun x => countE_edges_dAddEdge t a b w x,
    fun x => countE_edges_uAddEdge t a b w x⟩

/-- C8 counterexample: the struct derives only `Debug` and `Clone`, so
`PartialEq`/`Eq` comparison is not available on `NodeNotInGraph`. -/
theorem nodeNotInGraph_no_partialEq_derive :
    "PartialEq" ∉ derivedTraitsNodeNotInGraph
    ∧ "Eq" ∉ derivedTraitsNodeNotInGraph := by
  decide

/-- C8 (amended): `NodeNotInGraph` is constructible and cloneable
(it derives `Debug` and `Clone`), and its display rendering is exactly
"accessing a node that is not in the graph". -/
theorem nodeNotInGraph_error_value_spec :
    NodeNotInGraph.fmt ⟨⟩ = "accessing a node that is not in the graph"
    ∧ NodeNotInGraph.clone ⟨⟩ = ⟨⟩
    ∧ "Debug" ∈ derivedTraitsNodeNotInGraph
    ∧ "Clone" ∈ derivedTraitsNodeNotInGraph :=
  ⟨rfl, rfl, by decide, by decide⟩

/-- C9: the graph starts empty and never shrinks — `contains` is
preserved by every mutating operation, and every stored neighbour list
only ever grows by appending (the old list is a prefix of the new
one). -/
theorem monotonic_growth :
    newGraph = ([] : AdjTable)
    ∧ (∀ t op x, containsT t x = true → containsT (applyOp t op) x = true)
    ∧ (∀ t op x l, lookupT t x = some l →
        ∃ l2, lookupT (applyOp t op) x = some (l ++ l2)) :=
  ⟨rfl, fun t op x h => containsT_applyOp_mono t op x h,
    fun t op x l h => applyOp_mono t op x l h⟩

/-- Witness for C9: a present node survives an `add_edge`, and a stored
neighbour list is only extended by an `add_node`. -/
theorem monotonic_growth_witness :
    containsT (applyOp [("a", [])] (Op.addEdge "b" "c" 1)) "a" = true
    ∧ ∃ l2, lookupT (applyOp [("a", [("b", 2)])] (Op.addNode "c")) "a"
        = some ([("b", 2)] ++ l2) :=
  ⟨monotonic_growth.2.1 [("a", [])] (Op.addEdge "b" "c" 1) "a" (by decide),
    monotonic_growth.2.2 [("a", [("b", 2)])] (Op.addNode "c") "a"
      [("b", 2)] (by decide)⟩

/-- C10: a self-loop `add_edge(a, a, w)` appends `(a, w)` twice to `a`'s
own neighbour list, so it contributes the tuple `(a, a, w)` exactly
twice to `edges()`, and `contains(a)` holds afterwards. -/
theorem self_loop_double_entry (t : AdjTable) (a : String) (w : Int) :
    neighbors (uAddEdge t a a w) a = neighbors t a ++ [(a, w), (a, w)]
    ∧ countE (a, a, w) (edges (uAddEdge t a a w))
        = countE (a, a, w) (edges t) + 2
    ∧ containsT (uAddEdge t a a w) a = true
    ∧ countE (a, a, w) (edges (uAddEdge newGraph a a w)) = 2 := by
  refine ⟨?_, ?_, (containsT_uAddEdge t a a w a).mpr (Or.inl rfl), ?_⟩
  · simp [uAddEdge, neighbors_pushEntry, neighbors_condAddNode]
  · rw [countE_edges_uAddEdge]; simp
  · rw [countE_edges_uAddEdge]; simp [newGraph, edges, countE]

end Algorithm10
